import Mathlib

/-!
# ShareBuddy core: shallow embedding and verification

This file embeds the algorithmic core of the ShareBuddy repository in Lean 4
and proves (or refutes) the frozen specification claims about it.

Embedded components, each translated from the TypeScript source:
* `ErasureCoding` — `src/server/security/erasure-coding.ts`
  (`encode`, `decode`, `calculateOptimalChunks`).
* `ReputationSystem` — `src/server/security/reputation.ts`
  (`calculateScore`, `processEvent`).
* `StorageController` — the distribution controller
  (`processFileForDistribution`, `determineChunkPlacement`,
  `selectNodesForChunk`, `verifyChunkPlacement`, `retrieveFile`).
* `P2PTunnel` — `src/server/p2p/tunnel.ts`
  (`handlePeerDiscovery`, `forwardToTargetPeer`).

Modelling conventions:
* `Buffer` is `List ℕ` (one entry per byte); `Math.ceil(a / b)` on naturals is
  `ceilDiv`; JavaScript number arithmetic in the reputation engine is modelled
  as exact rational arithmetic (`ℚ`), with `Math.round` as Mathlib `round`.
* Database tables are in-memory lists of records; a SQL `UPDATE ... WHERE` is a
  `List.map` guarded on the predicate, an `INSERT` appends, a `SELECT ... WHERE`
  is a `List.filter`, `ORDER BY x DESC` is a merge sort.
* `throw` in TypeScript is `Except.error`; async effects that the claims read
  (row mutation, sent frames) are explicit return values.
* Cryptographic material (AES-256-GCM ciphertexts, IVs, auth tags, SHA hashes
  from `encryption.ts`) is not read by any verified claim; chunk rows carry the
  fields the claims inspect (index, type, status, size) and the key/IV/tag
  columns are abstracted away.
-/

/-! ## Redundancy coder (`src/server/security/erasure-coding.ts`) -/

/-- Models `Math.ceil(a / b)` for natural `a`, `b > 0`. -/
def ceilDiv (a b : ℕ) : ℕ := (a + b - 1) / b

/-- Error taxonomy of the erasure coder: the three `throw new Error(...)`
sites in `erasure-coding.ts`. -/
inductive CodingError
  | invalidParams
  | insufficientFragments
  | reconstructionNotImplemented
deriving Repr, DecidableEq

namespace ErasureCoding

/-- Models `Buffer.alloc(chunkSize)` followed by `data.copy(chunk, 0, start, end)`:
the copied bytes, zero-padded up to `chunkSize`. -/
def padChunk (chunkSize : ℕ) (l : List ℕ) : List ℕ :=
  l ++ List.replicate (chunkSize - l.length) 0

/-- The `i`-th data chunk: bytes `[i*chunkSize, min((i+1)*chunkSize, len))`
of `data`, zero-padded to exactly `chunkSize` bytes. -/
def dataChunkAt (data : List ℕ) (chunkSize i : ℕ) : List ℕ :=
  padChunk chunkSize ((data.drop (i * chunkSize)).take chunkSize)

/-- Bytewise XOR of two equal-length chunks (`parityChunk[k] ^= chunks[j][k]`). -/
def xorBytes (a b : List ℕ) : List ℕ := List.zipWith Nat.xor a b

/-- The `i`-th parity chunk: XOR of every data chunk `j` with
`(j + i) % parityChunks != 0`, starting from an all-zero buffer. -/
def parityChunkAt (chunks : List (List ℕ)) (chunkSize dataChunks parityChunks i : ℕ) :
    List ℕ :=
  (List.range dataChunks).foldl
    (fun acc j =>
      if (j + i) % parityChunks ≠ 0 then xorBytes acc (chunks.getD j []) else acc)
    (List.replicate chunkSize 0)

/-- Embeds `ErasureCoding.encode(data, dataChunks, parityChunks)`: splits `data` into
`dataChunks` zero-padded chunks of `ceil(len/dataChunks)` bytes and appends
`parityChunks` rotating-XOR parity chunks. -/
def encode (data : List ℕ) (dataChunks parityChunks : ℕ) :
    Except CodingError (List (List ℕ)) :=
  if dataChunks = 0 ∨ parityChunks = 0 then .error .invalidParams
  else
    let chunkSize := ceilDiv data.length dataChunks
    let chunks := (List.range dataChunks).map (dataChunkAt data chunkSize)
    let parity :=
      (List.range parityChunks).map (parityChunkAt chunks chunkSize dataChunks parityChunks)
    .ok (chunks ++ parity)

/-- Embeds `ErasureCoding.decode(chunks, chunkMap, dataChunks, parityChunks, originalSize)`:
fails when fewer than `dataChunks` entries of `chunkMap` are `true`; when the
first `dataChunks` entries are all `true`, concatenates the data chunks and
truncates to `originalSize`; otherwise the source throws its
"reconstruction not implemented" error. (`parityChunks` is accepted and unused,
as in the source.) -/
def decode (chunks : List (List ℕ)) (chunkMap : List Bool)
    (dataChunks _parityChunks originalSize : ℕ) : Except CodingError (List ℕ) :=
  let availableChunks := (chunkMap.filter id).length
  if availableChunks < dataChunks then .error .insufficientFragments
  else
    let allDataChunksAvailable := (chunkMap.take dataChunks).all id
    if allDataChunksAvailable then .ok (((chunks.take dataChunks).flatten).take originalSize)
    else .error .reconstructionNotImplemented

/-- Embeds `ErasureCoding.calculateOptimalChunks(fileSize, reliability)`: tiered base
chunk size, `dataChunks = max(3, ceil(fileSize/base))`,
`parityChunks = max(1, ceil(dataChunks * reliability / 5))` after clamping the
reliability level into `1..5`. -/
def calculateOptimalChunks (fileSize reliability : ℕ) : ℕ × ℕ :=
  let normalizedReliability := max 1 (min 5 reliability)
  let baseChunkSize :=
    if fileSize < 1024 * 1024 then 64 * 1024
    else if fileSize < 10 * 1024 * 1024 then 256 * 1024
    else if fileSize < 100 * 1024 * 1024 then 1024 * 1024
    else 4 * 1024 * 1024
  let dataChunks := max 3 (ceilDiv fileSize baseChunkSize)
  let parityChunks := max 1 (ceilDiv (dataChunks * normalizedReliability) 5)
  (dataChunks, parityChunks)

end ErasureCoding

/-! ## Correctness of the erasure coder fast path -/

namespace ErasureCoding

/-- Recursive view of the data-chunking loop: peel off `chunkSize` bytes at a
time, zero-padding each piece. -/
def chunkRec (chunkSize : ℕ) : ℕ → List ℕ → List (List ℕ)
  | 0, _ => []
  | n + 1, L => padChunk chunkSize (L.take chunkSize) :: chunkRec chunkSize n (L.drop chunkSize)

theorem dataChunks_eq_chunkRec (cs : ℕ) :
    ∀ (n : ℕ) (L : List ℕ), (List.range n).map (dataChunkAt L cs) = chunkRec cs n L := by
  intro n
  induction n with
  | zero => intro L; simp [chunkRec]
  | succ k ih =>
    intro L
    rw [List.range_succ_eq_map, List.map_cons, List.map_map, chunkRec]
    have hfun : dataChunkAt L cs ∘ Nat.succ = dataChunkAt (L.drop cs) cs := by
      funext i
      have h1 : Nat.succ i * cs = cs + i * cs := by
        rw [Nat.succ_mul]; exact Nat.add_comm _ _
      simp only [Function.comp_apply, dataChunkAt, List.drop_drop, h1]
    rw [hfun, ih (L.drop cs)]
    simp [dataChunkAt]

theorem flatten_chunkRec_take (cs : ℕ) :
    ∀ (n : ℕ) (L : List ℕ), L.length ≤ n * cs →
      ((chunkRec cs n L).flatten).take L.length = L := by
  intro n
  induction n with
  | zero =>
    intro L h
    simp only [Nat.zero_mul, Nat.le_zero, List.length_eq_zero] at h
    simp [h, chunkRec]
  | succ k ih =>
    intro L h
    rw [chunkRec, List.flatten_cons]
    by_cases hc : L.length ≤ cs
    · rw [List.take_of_length_le hc, padChunk, List.append_assoc]
      exact List.take_left L _
    · push_neg at hc
      have hlen : (L.take cs).length = cs := by
        rw [List.length_take]; omega
      have hpad : padChunk cs (L.take cs) = L.take cs := by
        rw [padChunk, hlen, Nat.sub_self, List.replicate_zero, List.append_nil]
      have hsplit : L.length = (L.take cs).length + (L.length - cs) := by
        rw [hlen]; omega
      rw [hpad, hsplit, List.take_append]
      have hdroplen : (L.drop cs).length ≤ k * cs := by
        rw [List.length_drop]
        have : L.length ≤ k * cs + cs := by
          have := h; rw [Nat.succ_mul] at this; omega
        omega
      have := ih (L.drop cs) hdroplen
      rw [List.length_drop] at this
      rw [this, List.take_append_drop]

theorem length_le_mul_ceilDiv (len d : ℕ) (hd : d ≠ 0) : len ≤ d * ceilDiv len d := by
  have hd' : 0 < d := Nat.pos_of_ne_zero hd
  have hdm := Nat.div_add_mod (len + d - 1) d
  have hR : (len + d - 1) % d < d := Nat.mod_lt _ hd'
  unfold ceilDiv
  set Q := (len + d - 1) / d with hQ
  set R := (len + d - 1) % d with hR'
  have hx : d * Q + R = len + d - 1 := hdm
  set x := d * Q
  omega

/-- Core round-trip fact: for any positive chunk counts, decoding the output of
`encode` with every fragment available returns exactly the original bytes. -/
theorem encode_decode_ok (B : List ℕ) (d p : ℕ) (hd : d ≠ 0) (hp : p ≠ 0) :
    ∃ chunks, encode B d p = .ok chunks ∧
      decode chunks (List.replicate (d + p) true) d p B.length = .ok B := by
  have hcond : ¬(d = 0 ∨ p = 0) := by tauto
  refine ⟨_, by rw [encode, if_neg hcond], ?_⟩
  rw [decode]
  have hfilter : ((List.replicate (d + p) true).filter id).length = d + p := by simp
  rw [hfilter]
  have hnotlt : ¬(d + p < d) := by omega
  rw [if_neg hnotlt]
  have halldata : ((List.replicate (d + p) true).take d).all id = true := by
    simp [List.take_replicate]
  rw [halldata]
  simp only [if_true]
  have hlen : ((List.range d).map (dataChunkAt B (ceilDiv B.length d))).length = d := by
    simp
  rw [List.take_left' hlen, dataChunks_eq_chunkRec]
  rw [flatten_chunkRec_take _ d B (length_le_mul_ceilDiv B.length d hd)]

end ErasureCoding

/-- C2: for every byte buffer `B` and reliability level `1..5`, encoding `B`
with the layout from `calculateOptimalChunks` and decoding with every fragment
available returns exactly `B`. -/
theorem claim_C2_encode_decode_roundtrip (B : List ℕ) (r : ℕ) (h1 : 1 ≤ r) (h5 : r ≤ 5) :
    ∃ chunks,
      ErasureCoding.encode B (ErasureCoding.calculateOptimalChunks B.length r).1
        (ErasureCoding.calculateOptimalChunks B.length r).2 = .ok chunks ∧
      ErasureCoding.decode chunks
        (List.replicate ((ErasureCoding.calculateOptimalChunks B.length r).1 +
          (ErasureCoding.calculateOptimalChunks B.length r).2) true)
        (ErasureCoding.calculateOptimalChunks B.length r).1
        (ErasureCoding.calculateOptimalChunks B.length r).2 B.length = .ok B := by
  apply ErasureCoding.encode_decode_ok
  · show ¬(max 3 _ = 0)
    omega
  · show ¬(max 1 _ = 0)
    omega

/-- C2 witness: the round trip at a concrete buffer and reliability level. -/
theorem claim_C2_witness :
    (1 ≤ 3 ∧ 3 ≤ 5) ∧
    ∃ chunks,
      ErasureCoding.encode [1, 2, 3] (ErasureCoding.calculateOptimalChunks [1, 2, 3].length 3).1
        (ErasureCoding.calculateOptimalChunks [1, 2, 3].length 3).2 = .ok chunks ∧
      ErasureCoding.decode chunks
        (List.replicate ((ErasureCoding.calculateOptimalChunks [1, 2, 3].length 3).1 +
          (ErasureCoding.calculateOptimalChunks [1, 2, 3].length 3).2) true)
        (ErasureCoding.calculateOptimalChunks [1, 2, 3].length 3).1
        (ErasureCoding.calculateOptimalChunks [1, 2, 3].length 3).2 [1, 2, 3].length = .ok [1, 2, 3] :=
  ⟨by decide, claim_C2_encode_decode_roundtrip [1, 2, 3] 3 (by decide) (by decide)⟩

/-- C5: whenever strictly fewer than `dataChunks` entries of the availability
map are set, `decode` fails with the insufficient-fragments error and returns
no reconstructed bytes. -/
theorem claim_C5_decode_insufficient (chunks : List (List ℕ)) (chunkMap : List Bool)
    (dataChunks parityChunks originalSize : ℕ)
    (h : (chunkMap.filter id).length < dataChunks) :
    ErasureCoding.decode chunks chunkMap dataChunks parityChunks originalSize =
      .error .insufficientFragments := by
  rw [ErasureCoding.decode, if_pos h]

/-- C5 witness: a concrete decode call with one available fragment out of the
two required data fragments. -/
theorem claim_C5_witness :
    (([true, false, false].filter id).length < 2) ∧
    ErasureCoding.decode [[1, 2], [3, 4], [5, 6]] [true, false, false] 2 1 4 =
      .error .insufficientFragments :=
  ⟨by decide, claim_C5_decode_insufficient [[1, 2], [3, 4], [5, 6]] [true, false, false] 2 1 4
    (by decide)⟩

/-! ## Reputation engine (`src/server/security/reputation.ts`) -/

/-- Per-node reputation aggregate (interface `ReputationScore`).
Counters are naturals, so the "nonnegative counters" precondition of the spec
holds by type; `lastUpdated` is an abstract clock value. -/
structure ReputationScore where
  userId : ℕ
  score : ℤ
  uptime : ℚ
  responseTime : ℚ
  lastUpdated : ℕ
  totalChunksStored : ℕ
  successfulRetrievals : ℕ
  failedRetrievals : ℕ
deriving Repr, DecidableEq

/-- The five reputation event types. -/
inductive ReputationEventType
  | chunk_stored
  | chunk_retrieved
  | chunk_lost
  | uptime_check
  | latency_check
deriving Repr, DecidableEq

/-- A reputation event. `responseTimeDetail` models `event.details?.responseTime`
(`none` when `details` is absent or has no `responseTime` key). -/
structure ReputationEvent where
  eventType : ReputationEventType
  successful : Bool
  responseTimeDetail : Option ℚ
deriving Repr, DecidableEq

namespace ReputationSystem

/-- Models `Math.max(0, Math.min(100, 100 - (responseTime - 500) / 45))`. -/
def normalizedResponseTime (responseTime : ℚ) : ℚ :=
  max 0 (min 100 (100 - (responseTime - 500) / 45))

/-- Embeds `ReputationSystem.calculateScore(metrics)`: the fixed weighted formula
(uptime 0.4, response time 0.2, retrieval success 0.3, storage stability 0.1),
rounded with `Math.round`. -/
def calculateScore (uptime responseTime retrievalSuccessRate storageStability : ℚ) : ℤ :=
  round (uptime * (4 / 10 : ℚ) + normalizedResponseTime responseTime * (2 / 10) +
    retrievalSuccessRate * (3 / 10) + storageStability * (1 / 10))

/-- Models `successfulRetrievals / (successfulRetrievals + failedRetrievals) * 100 || 100`:
in JavaScript the `|| 100` fallback fires both for `NaN` (no retrievals, `0/0`)
and for an exact rate of `0`; in `ℚ` division by zero yields `0`, so a single
zero test captures both falsy cases. -/
def retrievalSuccessRate (s : ReputationScore) : ℚ :=
  let rate := (s.successfulRetrievals : ℚ) /
    ((s.successfulRetrievals : ℚ) + (s.failedRetrievals : ℚ)) * 100
  if rate = 0 then 100 else rate

/-- Models `Math.max(0, 100 - failedRetrievals / Math.max(1, totalChunksStored) * 200)`. -/
def storageStability (s : ReputationScore) : ℚ :=
  max 0 (100 - (s.failedRetrievals : ℚ) / (max 1 s.totalChunksStored : ℕ) * 200)

/-- The per-event metric update (the `switch` in `processEvent`). A
`latency_check` folds the observed time into the EMA only when
`event.details?.responseTime` is truthy, i.e. present and nonzero. -/
def updateMetrics (event : ReputationEvent) (currentScore : ReputationScore) :
    ReputationScore :=
  match event.eventType with
  | .chunk_stored =>
      { currentScore with totalChunksStored := currentScore.totalChunksStored + 1 }
  | .chunk_retrieved =>
      if event.successful then
        { currentScore with successfulRetrievals := currentScore.successfulRetrievals + 1 }
      else
        { currentScore with failedRetrievals := currentScore.failedRetrievals + 1 }
  | .uptime_check =>
      let newUptime : ℚ := if event.successful then 100 else 0
      { currentScore with uptime := (9 / 10) * currentScore.uptime + (1 / 10) * newUptime }
  | .latency_check =>
      match event.responseTimeDetail with
      | some rt =>
          if rt ≠ 0 then
            { currentScore with
                responseTime := (9 / 10) * currentScore.responseTime + (1 / 10) * rt }
          else currentScore
      | none => currentScore
  | .chunk_lost =>
      { currentScore with failedRetrievals := currentScore.failedRetrievals + 1 }

/-- Embeds `ReputationSystem.processEvent(event, currentScore)`: apply the metric
update, then recompute the composite score from the updated metrics and stamp
`lastUpdated` (`new Date()` is the abstract `now`). -/
def processEvent (event : ReputationEvent) (currentScore : ReputationScore) (now : ℕ) :
    ReputationScore :=
  let updatedScore := updateMetrics event currentScore
  { updatedScore with
    score := calculateScore updatedScore.uptime updatedScore.responseTime
      (retrievalSuccessRate updatedScore) (storageStability updatedScore),
    lastUpdated := now }

/-- A sequence of timestamped events applied in order. -/
def applyEvents (init : ReputationScore) (events : List (ReputationEvent × ℕ)) :
    ReputationScore :=
  events.foldl (fun s e => processEvent e.1 s e.2) init

end ReputationSystem

/-! ## Reputation engine: bounds and claims C3, C4, C10 -/

namespace ReputationSystem

theorem normalizedResponseTime_bounds (rt : ℚ) :
    0 ≤ normalizedResponseTime rt ∧ normalizedResponseTime rt ≤ 100 := by
  refine ⟨le_max_left _ _, max_le (by norm_num) ?_⟩
  exact min_le_left _ _

theorem retrievalSuccessRate_bounds (s : ReputationScore) :
    0 ≤ retrievalSuccessRate s ∧ retrievalSuccessRate s ≤ 100 := by
  unfold retrievalSuccessRate
  set a : ℚ := (s.successfulRetrievals : ℚ) with ha
  set b : ℚ := (s.failedRetrievals : ℚ) with hb
  have ha0 : 0 ≤ a := Nat.cast_nonneg _
  have hb0 : 0 ≤ b := Nat.cast_nonneg _
  by_cases hz : a / (a + b) * 100 = 0
  · simp [hz]
  · simp only [if_neg hz]
    have hab : 0 < a + b := by
      rcases lt_or_eq_of_le (by linarith : (0 : ℚ) ≤ a + b) with h | h
      · exact h
      · exfalso
        have hA : a = 0 := by linarith
        rw [hA, zero_div, zero_mul] at hz
        exact hz rfl
    have hdiv : a / (a + b) ≤ 1 := (div_le_one hab).mpr (by linarith)
    have hdiv0 : 0 ≤ a / (a + b) := div_nonneg ha0 (le_of_lt hab)
    constructor
    · positivity
    · nlinarith

theorem storageStability_bounds (s : ReputationScore) :
    0 ≤ storageStability s ∧ storageStability s ≤ 100 := by
  unfold storageStability
  refine ⟨le_max_left _ _, max_le (by norm_num) ?_⟩
  have h1 : (0 : ℚ) ≤ ((max 1 s.totalChunksStored : ℕ) : ℚ) := Nat.cast_nonneg _
  have h2 : (0 : ℚ) ≤ (s.failedRetrievals : ℚ) := Nat.cast_nonneg _
  have h3 : (0 : ℚ) ≤ (s.failedRetrievals : ℚ) / ((max 1 s.totalChunksStored : ℕ) : ℚ) * 200 := by
    positivity
  linarith

theorem calculateScore_bounds (u rt rsr ss : ℚ)
    (hu : 0 ≤ u ∧ u ≤ 100) (hr : 0 ≤ rsr ∧ rsr ≤ 100) (hs : 0 ≤ ss ∧ ss ≤ 100) :
    0 ≤ calculateScore u rt rsr ss ∧ calculateScore u rt rsr ss ≤ 100 := by
  obtain ⟨hn0, hn1⟩ := normalizedResponseTime_bounds rt
  unfold calculateScore
  set x : ℚ := u * (4 / 10) + normalizedResponseTime rt * (2 / 10) + rsr * (3 / 10) +
    ss * (1 / 10) with hx
  have hx0 : 0 ≤ x := by rw [hx]; nlinarith [hu.1, hr.1, hs.1]
  have hx1 : x ≤ 100 := by rw [hx]; nlinarith [hu.2, hr.2, hs.2]
  rw [round_eq]
  constructor
  · apply Int.le_floor.mpr
    push_cast
    linarith
  · have : (⌊x + 1 / 2⌋ : ℤ) < 101 := by
      apply Int.floor_lt.mpr
      push_cast
      linarith
    omega

theorem updateMetrics_uptime_bounds (e : ReputationEvent) (s : ReputationScore)
    (h0 : 0 ≤ s.uptime) (h1 : s.uptime ≤ 100) :
    0 ≤ (updateMetrics e s).uptime ∧ (updateMetrics e s).uptime ≤ 100 := by
  rcases e with ⟨ty, succ, detail⟩
  cases ty <;> simp only [updateMetrics]
  · exact ⟨h0, h1⟩
  · cases succ <;> simp <;> exact ⟨h0, h1⟩
  · exact ⟨h0, h1⟩
  · cases succ <;> simp <;> constructor <;> linarith
  · cases detail with
    | none => exact ⟨h0, h1⟩
    | some rt =>
        by_cases hz : rt ≠ 0 <;> simp [hz] <;> exact ⟨h0, h1⟩

theorem processEvent_uptime_bounds (e : ReputationEvent) (s : ReputationScore) (now : ℕ)
    (h0 : 0 ≤ s.uptime) (h1 : s.uptime ≤ 100) :
    0 ≤ (processEvent e s now).uptime ∧ (processEvent e s now).uptime ≤ 100 := by
  have := updateMetrics_uptime_bounds e s h0 h1
  simpa [processEvent] using this

theorem processEvent_score_bounds (e : ReputationEvent) (s : ReputationScore) (now : ℕ)
    (h0 : 0 ≤ s.uptime) (h1 : s.uptime ≤ 100) :
    0 ≤ (processEvent e s now).score ∧ (processEvent e s now).score ≤ 100 := by
  have hu := updateMetrics_uptime_bounds e s h0 h1
  have := calculateScore_bounds (updateMetrics e s).uptime (updateMetrics e s).responseTime
    (retrievalSuccessRate (updateMetrics e s)) (storageStability (updateMetrics e s))
    hu (retrievalSuccessRate_bounds _) (storageStability_bounds _)
  simpa [processEvent] using this

theorem applyEvents_uptime_bounds (events : List (ReputationEvent × ℕ)) :
    ∀ init : ReputationScore, 0 ≤ init.uptime → init.uptime ≤ 100 →
      0 ≤ (applyEvents init events).uptime ∧ (applyEvents init events).uptime ≤ 100 := by
  induction events with
  | nil => intro init h0 h1; exact ⟨h0, h1⟩
  | cons e rest ih =>
    intro init h0 h1
    have hstep := processEvent_uptime_bounds e.1 init e.2 h0 h1
    exact ih (processEvent e.1 init e.2) hstep.1 hstep.2

end ReputationSystem

/-- C3: starting from any state whose uptime lies in `[0,100]` (counters are
nonnegative by type), after every event of any event sequence — i.e. after
every nonempty prefix — the uptime stays in `[0,100]` and the composite score
lies in `[0,100]`. -/
theorem claim_C3_reputation_bounds (init : ReputationScore)
    (events : List (ReputationEvent × ℕ)) (h0 : 0 ≤ init.uptime) (h1 : init.uptime ≤ 100)
    (n : ℕ) (hn : 1 ≤ n) (hle : n ≤ events.length) :
    (0 ≤ (ReputationSystem.applyEvents init (events.take n)).uptime ∧
      (ReputationSystem.applyEvents init (events.take n)).uptime ≤ 100) ∧
    (0 ≤ (ReputationSystem.applyEvents init (events.take n)).score ∧
      (ReputationSystem.applyEvents init (events.take n)).score ≤ 100) := by
  obtain ⟨m, rfl⟩ : ∃ m, n = m + 1 := ⟨n - 1, by omega⟩
  have hm : m < events.length := by omega
  have htake : events.take (m + 1) = events.take m ++ [events[m]] := by
    rw [List.take_succ, List.getElem?_eq_getElem hm]
    rfl
  rw [htake]
  have happ : ReputationSystem.applyEvents init (events.take m ++ [events[m]]) =
      ReputationSystem.processEvent (events[m]).1
        (ReputationSystem.applyEvents init (events.take m)) (events[m]).2 := by
    rw [ReputationSystem.applyEvents, List.foldl_append]
    rfl
  rw [happ]
  have hmid := ReputationSystem.applyEvents_uptime_bounds (events.take m) init h0 h1
  exact ⟨ReputationSystem.processEvent_uptime_bounds _ _ _ hmid.1 hmid.2,
    ReputationSystem.processEvent_score_bounds _ _ _ hmid.1 hmid.2⟩

/-- C3 witness: one concrete event applied to a concrete in-range state. -/
theorem claim_C3_witness :
    ((0 : ℚ) ≤ 50 ∧ (50 : ℚ) ≤ 100 ∧ 1 ≤ 1 ∧ 1 ≤ 1) ∧
    ((0 ≤ (ReputationSystem.applyEvents
        { userId := 1, score := 40, uptime := 50, responseTime := 600, lastUpdated := 0,
          totalChunksStored := 2, successfulRetrievals := 1, failedRetrievals := 1 }
        ([(⟨.chunk_lost, false, none⟩, 7)].take 1)).uptime ∧
      (ReputationSystem.applyEvents
        { userId := 1, score := 40, uptime := 50, responseTime := 600, lastUpdated := 0,
          totalChunksStored := 2, successfulRetrievals := 1, failedRetrievals := 1 }
        ([(⟨.chunk_lost, false, none⟩, 7)].take 1)).uptime ≤ 100) ∧
     (0 ≤ (ReputationSystem.applyEvents
        { userId := 1, score := 40, uptime := 50, responseTime := 600, lastUpdated := 0,
          totalChunksStored := 2, successfulRetrievals := 1, failedRetrievals := 1 }
        ([(⟨.chunk_lost, false, none⟩, 7)].take 1)).score ∧
      (ReputationSystem.applyEvents
        { userId := 1, score := 40, uptime := 50, responseTime := 600, lastUpdated := 0,
          totalChunksStored := 2, successfulRetrievals := 1, failedRetrievals := 1 }
        ([(⟨.chunk_lost, false, none⟩, 7)].take 1)).score ≤ 100)) :=
  ⟨⟨by norm_num, by norm_num, le_refl 1, le_refl 1⟩,
    claim_C3_reputation_bounds _ [(⟨.chunk_lost, false, none⟩, 7)]
      (by norm_num) (by norm_num) 1 (le_refl 1) (by simp)⟩

/-- The C4 scenario's initial state: defaults uptime=100, responseTime=500,
all counters 0. -/
def c4InitialScore : ReputationScore :=
  { userId := 1, score := 100, uptime := 100, responseTime := 500, lastUpdated := 0,
    totalChunksStored := 0, successfulRetrievals := 0, failedRetrievals := 0 }

/-- The C4 scenario's event sequence:
`[uptime_check(success), uptime_check(success), latency_check(400ms)]`. -/
def c4Events : List (ReputationEvent × ℕ) :=
  [(⟨.uptime_check, true, none⟩, 1), (⟨.uptime_check, true, none⟩, 2),
   (⟨.latency_check, true, some 400⟩, 3)]

/-- C4: applying `[uptime_check(success), uptime_check(success),
latency_check(400)]` to the default state yields uptime 100, responseTime 490,
and a score equal to the spec's weighted formula
`round(0.4*uptime + 0.2*clamp(100-(responseTime-500)/45, 0, 100) + 0.3*rsr + 0.1*ss)`
with the retrieval success rate defaulting to 100 (no retrievals observed) and
storage stability 100 (no failures). -/
theorem claim_C4_scenario :
    (ReputationSystem.applyEvents c4InitialScore c4Events).uptime = 100 ∧
    (ReputationSystem.applyEvents c4InitialScore c4Events).responseTime = 490 ∧
    (ReputationSystem.applyEvents c4InitialScore c4Events).score =
      round (((4 : ℚ) / 10) * (ReputationSystem.applyEvents c4InitialScore c4Events).uptime +
        ((2 : ℚ) / 10) * max 0 (min 100 (100 -
          ((ReputationSystem.applyEvents c4InitialScore c4Events).responseTime - 500) / 45)) +
        ((3 : ℚ) / 10) * 100 + ((1 : ℚ) / 10) * 100) := by
  simp only [ReputationSystem.applyEvents, ReputationSystem.processEvent,
    ReputationSystem.updateMetrics, ReputationSystem.calculateScore,
    ReputationSystem.retrievalSuccessRate, ReputationSystem.storageStability,
    ReputationSystem.normalizedResponseTime, c4InitialScore, c4Events, List.foldl]
  norm_num [round_eq]

/-- C10: a `latency_check` whose `details.responseTime` is absent or exactly 0
leaves `responseTime` (and every counter and the uptime) unchanged, while
`score` is still recomputed from the unchanged metrics and `lastUpdated` is
still stamped — the event behaves exactly like one carrying no response time. -/
theorem claim_C10_latency_frame (s : ReputationScore) (now : ℕ) (b : Bool)
    (d : Option ℚ) (hd : d = none ∨ d = some 0) :
    (ReputationSystem.processEvent ⟨.latency_check, b, d⟩ s now).responseTime =
        s.responseTime ∧
    (ReputationSystem.processEvent ⟨.latency_check, b, d⟩ s now).uptime = s.uptime ∧
    (ReputationSystem.processEvent ⟨.latency_check, b, d⟩ s now).totalChunksStored =
        s.totalChunksStored ∧
    (ReputationSystem.processEvent ⟨.latency_check, b, d⟩ s now).successfulRetrievals =
        s.successfulRetrievals ∧
    (ReputationSystem.processEvent ⟨.latency_check, b, d⟩ s now).failedRetrievals =
        s.failedRetrievals ∧
    (ReputationSystem.processEvent ⟨.latency_check, b, d⟩ s now).lastUpdated = now ∧
    (ReputationSystem.processEvent ⟨.latency_check, b, d⟩ s now).score =
        ReputationSystem.calculateScore s.uptime s.responseTime
          (ReputationSystem.retrievalSuccessRate s) (ReputationSystem.storageStability s) ∧
    ReputationSystem.processEvent ⟨.latency_check, b, d⟩ s now =
        ReputationSystem.processEvent ⟨.latency_check, b, none⟩ s now := by
  have hup : ReputationSystem.updateMetrics ⟨.latency_check, b, d⟩ s = s := by
    rcases hd with h | h <;> subst h <;> simp [ReputationSystem.updateMetrics]
  have hnone : ReputationSystem.updateMetrics ⟨.latency_check, b, (none : Option ℚ)⟩ s = s := by
    simp [ReputationSystem.updateMetrics]
  simp [ReputationSystem.processEvent, hup, hnone]

/-- C10 witness: a concrete latency check carrying a 0 ms observation. -/
theorem claim_C10_witness :
    ((some (0 : ℚ) = none ∨ some (0 : ℚ) = some 0) ∧
      (ReputationSystem.processEvent ⟨.latency_check, true, some 0⟩ c4InitialScore 9).responseTime =
        c4InitialScore.responseTime ∧
      (ReputationSystem.processEvent ⟨.latency_check, true, some 0⟩ c4InitialScore 9).lastUpdated = 9) :=
  ⟨Or.inr rfl,
    (claim_C10_latency_frame c4InitialScore 9 true (some 0) (Or.inr rfl)).1,
    (claim_C10_latency_frame c4InitialScore 9 true (some 0) (Or.inr rfl)).2.2.2.2.2.1⟩

/-! ## Shared persisted records (`src/shared/schema.ts`)

Each structure carries the columns that the embedded core reads or writes;
columns never touched by the verified code paths (IPs, ports, client version,
raw timestamps, performance JSON, encryption IV/tag text) are omitted. -/

/-- A `storage_nodes` row. -/
structure StorageNodeRec where
  id : ℕ
  userId : ℕ
  nodeId : String
  storageTotal : ℤ
  storageAvailable : ℤ
  status : String
  geolocation : String
  reputation : ℤ
deriving Repr, DecidableEq

/-- A `files` row. -/
structure FileRec where
  id : ℕ
  userId : ℕ
  name : String
  size : ℕ
  status : String
  uploaded : Bool
deriving Repr, DecidableEq

/-- A `file_chunks` row. -/
structure FileChunkRec where
  id : ℕ
  fileId : ℕ
  userId : ℕ
  chunkIndex : ℕ
  chunkType : String
  size : ℕ
  status : String
deriving Repr, DecidableEq

/-- A `chunk_placements` row. -/
structure ChunkPlacementRec where
  chunkId : ℕ
  nodeId : ℕ
  status : String
  redundancyLevel : ℕ
deriving Repr, DecidableEq

/-! ## Peer tunnel (`src/server/p2p/tunnel.ts`) -/

namespace P2PTunnel

/-- Metadata held for an authenticated peer (`peerMetadata` map entry); the
claims only read `userId` and `nodeId`. -/
structure PeerMeta where
  userId : ℕ
  nodeId : String
deriving Repr, DecidableEq

/-- Tunnel connection state: `connectedPeers` maps a peerId to whether the
socket's `readyState` is `OPEN`; `peerMetadata` maps a peerId to its metadata. -/
structure TunnelState where
  connectedPeers : List (String × Bool)
  peerMetadata : List (String × PeerMeta)
deriving Repr, DecidableEq

/-- Models `this.connectedPeers.get(pid)`: the socket open flag, when present. -/
def lookupConn (st : TunnelState) (pid : String) : Option Bool :=
  (st.connectedPeers.find? (fun e => decide (e.1 = pid))).map (·.2)

/-- A `chunk_request` frame as read by `forwardToTargetPeer`: the target node,
the sender-supplied `peerId` field (possibly absent), and the chunk id. -/
structure ChunkRequestMsg where
  targetNodeId : String
  peerId : Option String
  chunkId : ℕ
deriving Repr, DecidableEq

/-- A frame pushed to some peer's socket by `forwardToTargetPeer`. -/
inductive OutFrame
  | chunkResponseError (chunkId : ℕ)
  | forwardedChunkRequest (original : ChunkRequestMsg) (targetPeerId : Option String)
deriving Repr, DecidableEq

/-- The node entry shape of a `peer_discovery_result`: nodeId, capacity,
reputation and geolocation, with sensitive fields (IP) stripped. -/
structure PeerInfo where
  nodeId : String
  storageAvailable : ℤ
  reputation : ℤ
  geolocation : String
deriving Repr, DecidableEq

/-- Embeds `P2PTunnel.handlePeerDiscovery`: select nodes with
`status = online AND storageAvailable > 0 AND reputation >= 70`, order by
descending reputation, and strip each row down to the response shape.
(The incoming `query` object is accepted but never used by the source.) -/
def handlePeerDiscovery (nodes : List StorageNodeRec) : List PeerInfo :=
  let availableNodes :=
    List.insertionSort (fun a b => b.reputation ≤ a.reputation)
      (nodes.filter (fun n =>
        decide (n.status = "online" ∧ 0 < n.storageAvailable ∧ 70 ≤ n.reputation)))
  availableNodes.map (fun n => ⟨n.nodeId, n.storageAvailable, n.reputation, n.geolocation⟩)

/-- Embeds `P2PTunnel.forwardToTargetPeer(msg, senderMetadata)`: find the first
authenticated peer whose metadata `nodeId` equals `msg.targetNodeId`. If there
is none (or it has no connection entry), send an error `chunk_response` to the
connection registered under the request's own `peerId` field — only when that
connection exists and is `OPEN`. Otherwise log a `peer_connections` row and
forward the message (with `targetPeerId := msg.peerId` attached) to the target
when its socket is `OPEN`. Returns the frames pushed, keyed by receiving
peerId, and whether a `peer_connections` row was recorded. -/
def forwardToTargetPeer (st : TunnelState) (msg : ChunkRequestMsg) :
    List (String × OutFrame) × Bool :=
  let targetPeerId :=
    (st.peerMetadata.find? (fun e => decide (e.2.nodeId = msg.targetNodeId))).map (·.1)
  match targetPeerId with
  | none =>
      (match msg.peerId with
       | none => []
       | some pid =>
           match lookupConn st pid with
           | some true => [(pid, OutFrame.chunkResponseError msg.chunkId)]
           | _ => [], false)
  | some tid =>
      match lookupConn st tid with
      | none =>
          (match msg.peerId with
           | none => []
           | some pid =>
               match lookupConn st pid with
               | some true => [(pid, OutFrame.chunkResponseError msg.chunkId)]
               | _ => [], false)
      | some opened =>
          (if opened then [(tid, OutFrame.forwardedChunkRequest msg msg.peerId)] else [],
            true)

end P2PTunnel


/-- Concrete tunnel state for the C8 scenarios: one authenticated, open peer
`"peerA"` that is a plain browser client (so no target nodeId matches it). -/
def c8State : P2PTunnel.TunnelState :=
  ⟨[("peerA", true)], [("peerA", ⟨1, "browser-client"⟩)]⟩

/-- A chunk request for an unconnected node that carries no `peerId` field. -/
def c8MsgNoPeerId : P2PTunnel.ChunkRequestMsg := ⟨"nodeX", none, 42⟩

/-- The same request carrying the sender's own `peerId`. -/
def c8MsgWithPeerId : P2PTunnel.ChunkRequestMsg := ⟨"nodeX", some "peerA", 42⟩

/-- C7: every entry of a `peer_discovery_result` comes from a node that is
online with reputation at least 70 and strictly positive available capacity;
the entry itself exposes that reputation and capacity. -/
theorem claim_C7_peer_discovery_eligible (nodes : List StorageNodeRec)
    (p : P2PTunnel.PeerInfo) (hp : p ∈ P2PTunnel.handlePeerDiscovery nodes) :
    70 ≤ p.reputation ∧ 0 < p.storageAvailable ∧
    ∃ n ∈ nodes, n.status = "online" ∧ 0 < n.storageAvailable ∧ 70 ≤ n.reputation ∧
      p = ⟨n.nodeId, n.storageAvailable, n.reputation, n.geolocation⟩ := by
  unfold P2PTunnel.handlePeerDiscovery at hp
  rw [List.mem_map] at hp
  obtain ⟨n, hn, rfl⟩ := hp
  rw [(List.perm_insertionSort _ _).mem_iff, List.mem_filter, decide_eq_true_eq] at hn
  obtain ⟨hmem, hon, hcap, hrep⟩ := hn
  exact ⟨hrep, hcap, n, hmem, hon, hcap, hrep, rfl⟩

/-- C7 witness: a concrete two-node table where only the eligible node shows up. -/
theorem claim_C7_witness :
    (⟨"n1", 5, 80, "x"⟩ : P2PTunnel.PeerInfo) ∈
      P2PTunnel.handlePeerDiscovery
        [⟨1, 1, "n1", 10, 5, "online", "x", 80⟩, ⟨2, 1, "n2", 10, 5, "offline", "y", 90⟩] ∧
    70 ≤ (⟨"n1", 5, 80, "x"⟩ : P2PTunnel.PeerInfo).reputation ∧
    0 < (⟨"n1", 5, 80, "x"⟩ : P2PTunnel.PeerInfo).storageAvailable ∧
    ∃ n ∈ [(⟨1, 1, "n1", 10, 5, "online", "x", 80⟩ : StorageNodeRec),
           ⟨2, 1, "n2", 10, 5, "offline", "y", 90⟩],
      n.status = "online" ∧ 0 < n.storageAvailable ∧ 70 ≤ n.reputation ∧
      (⟨"n1", 5, 80, "x"⟩ : P2PTunnel.PeerInfo) =
        ⟨n.nodeId, n.storageAvailable, n.reputation, n.geolocation⟩ := by
  have hmem : (⟨"n1", 5, 80, "x"⟩ : P2PTunnel.PeerInfo) ∈
      P2PTunnel.handlePeerDiscovery
        [⟨1, 1, "n1", 10, 5, "online", "x", 80⟩, ⟨2, 1, "n2", 10, 5, "offline", "y", 90⟩] := by
    simp [P2PTunnel.handlePeerDiscovery, List.insertionSort, List.orderedInsert]
  have := claim_C7_peer_discovery_eligible
    [⟨1, 1, "n1", 10, 5, "online", "x", 80⟩, ⟨2, 1, "n2", 10, 5, "offline", "y", 90⟩]
    ⟨"n1", 5, 80, "x"⟩ hmem
  exact ⟨hmem, this⟩

/-- C8 counterexample: an authenticated, open requester sends a `chunk_request`
for an unconnected target, but the frame carries no `peerId` field; the tunnel
pushes no frame to anyone — the request is silently dropped, refuting the claim
that the original requester always receives an explicit error frame. -/
theorem claim_C8_counterexample :
    (c8State.peerMetadata.find?
        (fun e => decide (e.2.nodeId = c8MsgNoPeerId.targetNodeId))) = none ∧
    (P2PTunnel.forwardToTargetPeer c8State c8MsgNoPeerId).1 = [] := by
  constructor
  · rfl
  · rfl

/-- C8 as amended: when the target node matches no authenticated peer, the
error `chunk_response` is delivered to the connection registered under the
request's `peerId` field, provided that field names a currently connected peer
whose socket is open; a request without such a `peerId` is dropped silently. -/
theorem claim_C8_target_unavailable_error (st : P2PTunnel.TunnelState)
    (msg : P2PTunnel.ChunkRequestMsg) (pid : String)
    (htarget : (st.peerMetadata.find? (fun e => decide (e.2.nodeId = msg.targetNodeId))) = none)
    (hpid : msg.peerId = some pid)
    (hopen : P2PTunnel.lookupConn st pid = some true) :
    (P2PTunnel.forwardToTargetPeer st msg).1 =
      [(pid, P2PTunnel.OutFrame.chunkResponseError msg.chunkId)] := by
  simp [P2PTunnel.forwardToTargetPeer, htarget, hpid, hopen]

/-- C8 witness: a concrete requester with its own `peerId` attached receives
the error frame. -/
theorem claim_C8_witness :
    ((c8State.peerMetadata.find?
        (fun e => decide (e.2.nodeId = c8MsgWithPeerId.targetNodeId))) = none ∧
      c8MsgWithPeerId.peerId = some "peerA" ∧
      P2PTunnel.lookupConn c8State "peerA" = some true) ∧
    (P2PTunnel.forwardToTargetPeer c8State c8MsgWithPeerId).1 =
      [("peerA", P2PTunnel.OutFrame.chunkResponseError c8MsgWithPeerId.chunkId)] :=
  ⟨⟨rfl, rfl, rfl⟩,
    claim_C8_target_unavailable_error c8State c8MsgWithPeerId "peerA" rfl rfl rfl⟩

/-! ## Distribution controller (`StorageController`)

The database visible to the controller: the four tables it touches plus the
serial `id` counter of `file_chunks` (each `INSERT ... RETURNING` hands back
the next serial id). `storageUrl` (which embeds `randomBytes`) and the
encryption columns are not read by any claim and are omitted from the rows. -/

/-- The controller's database state. -/
structure DB where
  files : List FileRec
  fileChunks : List FileChunkRec
  chunkPlacements : List ChunkPlacementRec
  storageNodes : List StorageNodeRec
  nextChunkId : ℕ
deriving Repr, DecidableEq

/-- Result of `processFileForDistribution`: `ok` is `{success:true, fileKey}`
(the generated key itself is crypto material the claims never read),
`failure` is `{success:false, error, placedChunks, totalChunks}`, and `thrown`
is an exception propagated out of the `catch` block. -/
inductive DistributionResult
  | ok
  | failure (placedChunks totalChunks : ℕ)
  | thrown (error : String)
deriving Repr, DecidableEq

/-- Result record of `verifyChunkPlacement`. -/
structure PlacementStatus where
  allPlaced : Bool
  placedCount : ℕ
  totalChunks : ℕ
deriving Repr, DecidableEq

/-- Errors thrown by `retrieveFile`. -/
inductive RetrieveError
  | notFound
  | noChunks
  | insufficientChunks
deriving Repr, DecidableEq

namespace StorageController

/-- Models the status update `db.update(files).set(..).where(eq(files.id, fileId))`. -/
def updateFileStatus (db : DB) (fileId : ℕ) (status : String) : DB :=
  { db with files :=
      db.files.map (fun f => if f.id = fileId then { f with status := status } else f) }

/-- Models the update setting status `backed_up` and `uploaded: true` on the file row. -/
def markFileBackedUp (db : DB) (fileId : ℕ) : DB :=
  { db with files :=
      db.files.map (fun f =>
        if f.id = fileId then { f with status := "backed_up", uploaded := true } else f) }

/-- The node query of `determineChunkPlacement`:
`status = online AND reputation >= 70`, ordered by reputation descending. -/
def eligibleNodes (db : DB) : List StorageNodeRec :=
  List.insertionSort (fun a b => b.reputation ≤ a.reputation)
    (db.storageNodes.filter (fun n => decide (n.status = "online" ∧ 70 ≤ n.reputation)))

/-- Embeds `selectNodesForChunk(nodes, count)`: just pick the first `count` nodes. -/
def selectNodesForChunk (nodes : List StorageNodeRec) (count : ℕ) : List StorageNodeRec :=
  nodes.take count

/-- One inserted `chunk_placements` row (`status: "pending"`). -/
def mkPlacement (chunkId : ℕ) (node : StorageNodeRec) (placementsPerChunk : ℕ) :
    ChunkPlacementRec :=
  ⟨chunkId, node.id, "pending", placementsPerChunk⟩

/-- Embeds `determineChunkPlacement(chunkIds, redundancyLevel)`: query the eligible
nodes once, then insert `min(|nodes|, redundancyLevel)` placements per chunk.
In the source `placementsPerChunk` and the selected nodes are recomputed inside
the per-chunk loop from the loop-invariant `availableNodes`; they are hoisted
out here, value for value. -/
def determineChunkPlacement (db : DB) (chunkIds : List ℕ) (redundancyLevel : ℕ) : DB :=
  let availableNodes := eligibleNodes db
  let placementsPerChunk := min availableNodes.length redundancyLevel
  let selectedNodes := selectNodesForChunk availableNodes placementsPerChunk
  chunkIds.foldl
    (fun d chunkId =>
      { d with chunkPlacements := d.chunkPlacements ++
          selectedNodes.map (fun node => mkPlacement chunkId node placementsPerChunk) })
    db

/-- Embeds `verifyChunkPlacement(chunkIds)`: the SQL
`SELECT chunkId, count(nodeId) ... WHERE chunkId IN chunkIds GROUP BY chunkId`
returns one row per distinct chunk id that has at least one placement;
`placedCount` is the number of such rows. -/
def verifyChunkPlacement (db : DB) (chunkIds : List ℕ) : PlacementStatus :=
  let placements :=
    ((db.chunkPlacements.filter (fun p => decide (p.chunkId ∈ chunkIds))).map
      (fun p => p.chunkId)).dedup
  let placedChunks := placements.length
  ⟨placedChunks = chunkIds.length, placedChunks, chunkIds.length⟩

/-- The chunk-insertion loop of `processFileForDistribution`: one
`file_chunks` row per encoded chunk (`status: "pending"`, `chunkType` data for
the first `dataChunks` indices, parity after), collecting the returned serial
ids. -/
def insertChunkRows (db : DB) (fileId userId : ℕ) (chunks : List (List ℕ))
    (dataChunks : ℕ) : DB × List ℕ :=
  let newRows := (List.range chunks.length).map (fun i =>
    ({ id := db.nextChunkId + i, fileId := fileId, userId := userId, chunkIndex := i,
       chunkType := if i < dataChunks then "data" else "parity",
       size := (chunks.getD i []).length, status := "pending" } : FileChunkRec))
  ({ db with
      fileChunks := db.fileChunks ++ newRows,
      nextChunkId := db.nextChunkId + chunks.length },
    (List.range chunks.length).map (db.nextChunkId + ·))

/-- Embeds `StorageController.processFileForDistribution(fileId, userId, fileData,
reliability)`: look the file up (throwing resets its status to `pending` in the
`catch` block and rethrows); mark it `backing_up`; compute the layout; encode;
insert one chunk row per encoded chunk; place chunks; verify placement. Full
placement marks the file `backed_up` and returns success; otherwise the file
goes back to `pending` and the failure carries the counts. -/
def processFileForDistribution (db : DB) (fileId userId : ℕ) (fileData : List ℕ)
    (reliability : ℕ) : DistributionResult × DB :=
  match db.files.find? (fun f => decide (f.id = fileId)) with
  | none => (.thrown "file not found", updateFileStatus db fileId "pending")
  | some _fileInfo =>
      let db1 := updateFileStatus db fileId "backing_up"
      let layout := ErasureCoding.calculateOptimalChunks fileData.length reliability
      match ErasureCoding.encode fileData layout.1 layout.2 with
      | .error _ => (.thrown "encode failed", updateFileStatus db1 fileId "pending")
      | .ok chunks =>
          let inserted := insertChunkRows db1 fileId userId chunks layout.1
          let db3 := determineChunkPlacement inserted.1 inserted.2 reliability
          let status := verifyChunkPlacement db3 inserted.2
          if status.allPlaced then (.ok, markFileBackedUp db3 fileId)
          else (.failure status.placedCount status.totalChunks,
            updateFileStatus db3 fileId "pending")

/-- Embeds `StorageController.retrieveFile(fileId, userId)`: ownership check, chunk
load ordered by index, then the availability check — the source counts a data
chunk as available only when its status is exactly `"stored"`. -/
def retrieveFile (db : DB) (fileId userId : ℕ) : Except RetrieveError FileRec :=
  match db.files.find? (fun f => decide (f.id = fileId ∧ f.userId = userId)) with
  | none => .error .notFound
  | some fileInfo =>
      let fileChunksList :=
        List.insertionSort (fun a b => a.chunkIndex ≤ b.chunkIndex)
          (db.fileChunks.filter (fun c => decide (c.fileId = fileId)))
      if fileChunksList.length = 0 then .error .noChunks
      else
        let dataChunks := (fileChunksList.filter (fun c => decide (c.chunkType = "data"))).length
        let dataChunksAvailable :=
          (fileChunksList.filter (fun c =>
            decide (c.chunkType = "data" ∧ c.status = "stored"))).length
        if dataChunksAvailable < dataChunks then .error .insufficientChunks
        else .ok fileInfo

end StorageController

/-! ## Distribution controller: placement-count lemmas -/

namespace StorageController

theorem updateFileStatus_chunkPlacements (db : DB) (fileId : ℕ) (s : String) :
    (updateFileStatus db fileId s).chunkPlacements = db.chunkPlacements := rfl

theorem updateFileStatus_storageNodes (db : DB) (fileId : ℕ) (s : String) :
    (updateFileStatus db fileId s).storageNodes = db.storageNodes := rfl

theorem updateFileStatus_nextChunkId (db : DB) (fileId : ℕ) (s : String) :
    (updateFileStatus db fileId s).nextChunkId = db.nextChunkId := rfl

theorem markFileBackedUp_chunkPlacements (db : DB) (fileId : ℕ) :
    (markFileBackedUp db fileId).chunkPlacements = db.chunkPlacements := rfl

theorem insertChunkRows_chunkPlacements (db : DB) (fileId userId : ℕ)
    (chunks : List (List ℕ)) (dataChunks : ℕ) :
    (insertChunkRows db fileId userId chunks dataChunks).1.chunkPlacements =
      db.chunkPlacements := rfl

theorem insertChunkRows_storageNodes (db : DB) (fileId userId : ℕ)
    (chunks : List (List ℕ)) (dataChunks : ℕ) :
    (insertChunkRows db fileId userId chunks dataChunks).1.storageNodes =
      db.storageNodes := rfl

theorem insertChunkRows_chunkIds (db : DB) (fileId userId : ℕ)
    (chunks : List (List ℕ)) (dataChunks : ℕ) :
    (insertChunkRows db fileId userId chunks dataChunks).2 =
      (List.range chunks.length).map (db.nextChunkId + ·) := rfl

theorem eligibleNodes_congr {a b : DB} (h : a.storageNodes = b.storageNodes) :
    eligibleNodes a = eligibleNodes b := by
  unfold eligibleNodes
  rw [h]

/-- The placement loop only appends placement rows: closed form. -/
theorem foldl_place_chunkPlacements (sel : List StorageNodeRec) (ppc : ℕ) :
    ∀ (cids : List ℕ) (d : DB),
      cids.foldl
        (fun d chunkId =>
          { d with chunkPlacements := d.chunkPlacements ++
              sel.map (fun node => mkPlacement chunkId node ppc) })
        d =
      { d with chunkPlacements := d.chunkPlacements ++
          cids.flatMap (fun cid => sel.map (fun node => mkPlacement cid node ppc)) } := by
  intro cids
  induction cids with
  | nil => intro d; simp
  | cons c t ih =>
    intro d
    rw [List.foldl_cons, ih]
    simp [List.flatMap_cons, List.append_assoc]

theorem determineChunkPlacement_chunkPlacements (db : DB) (cids : List ℕ)
    (redundancyLevel : ℕ) :
    (determineChunkPlacement db cids redundancyLevel).chunkPlacements =
      db.chunkPlacements ++
        cids.flatMap (fun cid =>
          (selectNodesForChunk (eligibleNodes db)
              (min (eligibleNodes db).length redundancyLevel)).map
            (fun node =>
              mkPlacement cid node (min (eligibleNodes db).length redundancyLevel))) := by
  unfold determineChunkPlacement
  rw [foldl_place_chunkPlacements]

/-- Counting placement rows for one chunk id over the rows the loop inserts. -/
theorem countP_flatMap_mkPlacement (sel : List StorageNodeRec) (ppc c : ℕ) :
    ∀ cids : List ℕ,
      (cids.flatMap (fun cid => sel.map (fun node => mkPlacement cid node ppc))).countP
          (fun p => decide (p.chunkId = c)) =
        cids.count c * sel.length := by
  intro cids
  induction cids with
  | nil => simp
  | cons cid t ih =>
    rw [List.flatMap_cons, List.countP_append, ih, List.countP_map, List.count_cons]
    by_cases h : cid = c
    · subst h
      have : ((fun p => decide (ChunkPlacementRec.chunkId p = cid)) ∘
          fun node => mkPlacement cid node ppc) = fun _ => true := by
        funext node; simp [mkPlacement]
      rw [this, List.countP_true]
      simp [Nat.add_mul, Nat.add_comm]
    · have : ((fun p => decide (ChunkPlacementRec.chunkId p = c)) ∘
          fun node => mkPlacement cid node ppc) = fun _ => false := by
        funext node; simp [mkPlacement, h]
      rw [this, List.countP_false]
      simp [h]

theorem chunkIds_nodup (base n : ℕ) : (((List.range n).map (base + ·)) : List ℕ).Nodup :=
  (List.nodup_range n).map (fun x y h => by omega)

theorem chunkIds_count_le_one (base n c : ℕ) :
    (((List.range n).map (base + ·)) : List ℕ).count c ≤ 1 :=
  List.nodup_iff_count_le_one.mp (chunkIds_nodup base n) c

theorem chunkIds_count_eq_one (base n i : ℕ) (hi : i < n) :
    (((List.range n).map (base + ·)) : List ℕ).count (base + i) = 1 := by
  have h1 := chunkIds_count_le_one base n (base + i)
  have hmem : base + i ∈ ((List.range n).map (base + ·)) :=
    List.mem_map.mpr ⟨i, List.mem_range.mpr hi, rfl⟩
  have h2 := List.count_pos_iff.mpr hmem
  omega

/-- C6: one distribution call never records more than `reliabilityLevel`
placement rows for any single chunk id: for every chunk id, the placement rows
present after the call number at most `reliabilityLevel` more than before. -/
theorem claim_C6_placements_bounded (db : DB) (fileId userId : ℕ) (fileData : List ℕ)
    (reliability cid : ℕ) :
    ((StorageController.processFileForDistribution db fileId userId fileData
        reliability).2.chunkPlacements.countP (fun p => decide (p.chunkId = cid))) ≤
      db.chunkPlacements.countP (fun p => decide (p.chunkId = cid)) + reliability := by
  rcases hf : db.files.find? (fun f => decide (f.id = fileId)) with _ | fi
  · simp only [StorageController.processFileForDistribution, hf]
    rw [StorageController.updateFileStatus_chunkPlacements]
    exact Nat.le_add_right _ _
  · rcases he : ErasureCoding.encode fileData
        (ErasureCoding.calculateOptimalChunks fileData.length reliability).1
        (ErasureCoding.calculateOptimalChunks fileData.length reliability).2 with err | chunks
    · simp only [StorageController.processFileForDistribution, hf, he]
      rw [StorageController.updateFileStatus_chunkPlacements,
        StorageController.updateFileStatus_chunkPlacements]
      exact Nat.le_add_right _ _
    · simp only [StorageController.processFileForDistribution, hf, he]
      have hplace :
          ∀ d : DB, d =
              StorageController.determineChunkPlacement
                (StorageController.insertChunkRows
                  (StorageController.updateFileStatus db fileId "backing_up") fileId userId
                  chunks (ErasureCoding.calculateOptimalChunks fileData.length reliability).1).1
                (StorageController.insertChunkRows
                  (StorageController.updateFileStatus db fileId "backing_up") fileId userId
                  chunks (ErasureCoding.calculateOptimalChunks fileData.length reliability).1).2
                reliability →
            d.chunkPlacements.countP (fun p => decide (p.chunkId = cid)) ≤
              db.chunkPlacements.countP (fun p => decide (p.chunkId = cid)) + reliability := by
        intro d hd
        subst hd
        rw [StorageController.determineChunkPlacement_chunkPlacements,
          StorageController.insertChunkRows_chunkPlacements,
          StorageController.updateFileStatus_chunkPlacements, List.countP_append,
          StorageController.insertChunkRows_chunkIds,
          StorageController.countP_flatMap_mkPlacement]
        apply Nat.add_le_add_left
        calc _ ≤ 1 * reliability := by
              apply Nat.mul_le_mul
              · exact StorageController.chunkIds_count_le_one _ _ _
              · unfold StorageController.selectNodesForChunk
                rw [List.length_take]
                exact le_trans (min_le_left _ _) (min_le_right _ _)
          _ = reliability := Nat.one_mul _
      split
      · rw [StorageController.markFileBackedUp_chunkPlacements]
        exact hplace _ rfl
      · rw [StorageController.updateFileStatus_chunkPlacements]
        exact hplace _ rfl

/-- Lemma: `verifyChunkPlacement` reports full placement when the chunk ids are
distinct and each has at least one placement row. -/
theorem verifyChunkPlacement_all (db : DB) (cids : List ℕ) (hnd : cids.Nodup)
    (hall : ∀ cid ∈ cids, ∃ p ∈ db.chunkPlacements, p.chunkId = cid) :
    StorageController.verifyChunkPlacement db cids = ⟨true, cids.length, cids.length⟩ := by
  unfold StorageController.verifyChunkPlacement
  have hfin :
      ((db.chunkPlacements.filter (fun p => decide (p.chunkId ∈ cids))).map
        (fun p => p.chunkId)).toFinset = cids.toFinset := by
    ext x
    simp only [List.mem_toFinset, List.mem_map, List.mem_filter, decide_eq_true_eq]
    constructor
    · rintro ⟨p, ⟨hp, hmem⟩, rfl⟩
      exact hmem
    · intro hx
      obtain ⟨p, hp, hpc⟩ := hall x hx
      exact ⟨p, ⟨hp, hpc ▸ hx⟩, hpc⟩
  have hlen :
      ((db.chunkPlacements.filter (fun p => decide (p.chunkId ∈ cids))).map
        (fun p => p.chunkId)).dedup.length = cids.length := by
    rw [← List.card_toFinset, hfin, List.toFinset_card_of_nodup hnd]
  simp [hlen]

/-- C1 (amended): a distribution call with `reliabilityLevel = 3` against a
database holding exactly one eligible node (online, reputation ≥ 70), for an
existing file, gives every fragment exactly one placement, returns success, and
marks the file `backed_up` — it does not report failure or reset the file to
`pending`, because `verifyChunkPlacement` only requires one placement per chunk. -/
theorem claim_C1_amended_one_node (db : DB) (fileId userId : ℕ) (fileData : List ℕ)
    (fi : FileRec) (hfind : db.files.find? (fun f => decide (f.id = fileId)) = some fi)
    (helig : (StorageController.eligibleNodes db).length = 1) :
    ((StorageController.processFileForDistribution db fileId userId fileData 3).1 =
        DistributionResult.ok) ∧
    (∀ f ∈ (StorageController.processFileForDistribution db fileId userId fileData 3).2.files,
        f.id = fileId → f.status = "backed_up" ∧ f.uploaded = true) ∧
    (∀ i < (ErasureCoding.calculateOptimalChunks fileData.length 3).1 +
        (ErasureCoding.calculateOptimalChunks fileData.length 3).2,
      ((StorageController.processFileForDistribution db fileId userId fileData
          3).2.chunkPlacements.countP (fun p => decide (p.chunkId = db.nextChunkId + i))) =
        db.chunkPlacements.countP (fun p => decide (p.chunkId = db.nextChunkId + i)) + 1) := by
  have hd : (ErasureCoding.calculateOptimalChunks fileData.length 3).1 ≠ 0 := by
    unfold ErasureCoding.calculateOptimalChunks
    dsimp only
    omega
  have hp : (ErasureCoding.calculateOptimalChunks fileData.length 3).2 ≠ 0 := by
    unfold ErasureCoding.calculateOptimalChunks
    dsimp only
    omega
  have he : ErasureCoding.encode fileData
      (ErasureCoding.calculateOptimalChunks fileData.length 3).1
      (ErasureCoding.calculateOptimalChunks fileData.length 3).2 =
      .ok ((List.range (ErasureCoding.calculateOptimalChunks fileData.length 3).1).map
            (ErasureCoding.dataChunkAt fileData
              (ceilDiv fileData.length
                (ErasureCoding.calculateOptimalChunks fileData.length 3).1)) ++
          (List.range (ErasureCoding.calculateOptimalChunks fileData.length 3).2).map
            (ErasureCoding.parityChunkAt
              ((List.range (ErasureCoding.calculateOptimalChunks fileData.length 3).1).map
                (ErasureCoding.dataChunkAt fileData
                  (ceilDiv fileData.length
                    (ErasureCoding.calculateOptimalChunks fileData.length 3).1)))
              (ceilDiv fileData.length
                (ErasureCoding.calculateOptimalChunks fileData.length 3).1)
              (ErasureCoding.calculateOptimalChunks fileData.length 3).1
              (ErasureCoding.calculateOptimalChunks fileData.length 3).2)) := by
    rw [ErasureCoding.encode, if_neg (by tauto)]
  rcases he2 : ErasureCoding.encode fileData
      (ErasureCoding.calculateOptimalChunks fileData.length 3).1
      (ErasureCoding.calculateOptimalChunks fileData.length 3).2 with err | chunks
  · rw [he2] at he
    exact absurd he (by simp)
  · have hchlen : chunks.length =
        (ErasureCoding.calculateOptimalChunks fileData.length 3).1 +
          (ErasureCoding.calculateOptimalChunks fileData.length 3).2 := by
      rw [he2] at he
      have := Except.ok.inj he
      rw [this]
      simp
    simp only [StorageController.processFileForDistribution, hfind, he2]
    set db1 := StorageController.updateFileStatus db fileId "backing_up" with hdb1
    set inserted := StorageController.insertChunkRows db1 fileId userId chunks
      (ErasureCoding.calculateOptimalChunks fileData.length 3).1 with hins
    set db3 := StorageController.determineChunkPlacement inserted.1 inserted.2 3 with hdb3
    have helig2 : StorageController.eligibleNodes inserted.1 =
        StorageController.eligibleNodes db :=
      StorageController.eligibleNodes_congr rfl
    have hsellen :
        (StorageController.selectNodesForChunk (StorageController.eligibleNodes inserted.1)
          (min (StorageController.eligibleNodes inserted.1).length 3)).length = 1 := by
      unfold StorageController.selectNodesForChunk
      rw [List.length_take, helig2, helig]
      omega
    have hids : inserted.2 = (List.range chunks.length).map (db.nextChunkId + ·) := by
      rw [hins]
      rfl
    have hplacements : db3.chunkPlacements = db.chunkPlacements ++
        inserted.2.flatMap (fun cid =>
          (StorageController.selectNodesForChunk (StorageController.eligibleNodes inserted.1)
              (min (StorageController.eligibleNodes inserted.1).length 3)).map
            (fun node =>
              StorageController.mkPlacement cid node
                (min (StorageController.eligibleNodes inserted.1).length 3))) := by
      rw [hdb3, StorageController.determineChunkPlacement_chunkPlacements,
        StorageController.insertChunkRows_chunkPlacements,
        StorageController.updateFileStatus_chunkPlacements]
    have hcount : ∀ i < (ErasureCoding.calculateOptimalChunks fileData.length 3).1 +
        (ErasureCoding.calculateOptimalChunks fileData.length 3).2,
        db3.chunkPlacements.countP (fun p => decide (p.chunkId = db.nextChunkId + i)) =
          db.chunkPlacements.countP (fun p => decide (p.chunkId = db.nextChunkId + i)) + 1 := by
      intro i hi
      rw [hplacements, List.countP_append, hids,
        StorageController.countP_flatMap_mkPlacement, hsellen,
        StorageController.chunkIds_count_eq_one db.nextChunkId chunks.length i
          (by rw [hchlen]; exact hi), Nat.one_mul]
    have hall : ∀ cid ∈ inserted.2, ∃ p ∈ db3.chunkPlacements, p.chunkId = cid := by
      intro cid hcid
      obtain ⟨node, hnode⟩ := List.exists_mem_of_length_pos (by rw [hsellen]; omega)
      refine ⟨StorageController.mkPlacement cid node
        (min (StorageController.eligibleNodes inserted.1).length 3), ?_, rfl⟩
      rw [hplacements]
      apply List.mem_append_right
      exact List.mem_flatMap.mpr ⟨cid, hcid, List.mem_map_of_mem _ hnode⟩
    have hverify : StorageController.verifyChunkPlacement db3 inserted.2 =
        ⟨true, inserted.2.length, inserted.2.length⟩ :=
      verifyChunkPlacement_all db3 inserted.2
        (by rw [hids]; exact StorageController.chunkIds_nodup _ _) hall
    rw [hverify]
    simp only [if_true]
    refine ⟨?_, ?_, ?_⟩
    · simp
    · intro f hf hfid
      simp only [StorageController.markFileBackedUp, List.mem_map] at hf
      obtain ⟨f0, hf0, rfl⟩ := hf
      by_cases h0 : f0.id = fileId
      · simp [h0]
      · simp only [if_neg h0] at hfid ⊢
        exact absurd hfid h0
    · intro i hi
      have := hcount i hi
      simpa [StorageController.markFileBackedUp] using this

/-- The C1 scenario database: one pending file and exactly one eligible
storage node (online, reputation 80 ≥ 70). -/
def c1Db : DB :=
  { files := [⟨1, 1, "report", 10, "pending", false⟩],
    fileChunks := [],
    chunkPlacements := [],
    storageNodes := [⟨7, 2, "node1", 1000, 500, "online", "x", 80⟩],
    nextChunkId := 1 }

/-- C1 counterexample: distributing a 10-byte file at `reliabilityLevel = 3`
against exactly one eligible node returns `{success:true}` and marks the file
`backed_up` — not `{success:false}` with a reset to `pending` as the claim
states (the one-placement-per-fragment part of the claim does hold). -/
theorem claim_C1_counterexample :
    (StorageController.eligibleNodes c1Db).length = 1 ∧
    (StorageController.processFileForDistribution c1Db 1 1 (List.replicate 10 3) 3).1 =
      DistributionResult.ok ∧
    ((StorageController.processFileForDistribution c1Db 1 1
        (List.replicate 10 3) 3).2.files.find? (fun f => decide (f.id = 1))).map
      (fun f => f.status) = some "backed_up" := by
  decide

/-- C1 witness: the amended claim instantiated at the concrete one-node
database. -/
theorem claim_C1_witness :
    (c1Db.files.find? (fun f => decide (f.id = 1)) =
        some ⟨1, 1, "report", 10, "pending", false⟩ ∧
      (StorageController.eligibleNodes c1Db).length = 1) ∧
    (((StorageController.processFileForDistribution c1Db 1 1 (List.replicate 10 3) 3).1 =
        DistributionResult.ok) ∧
     (∀ f ∈ (StorageController.processFileForDistribution c1Db 1 1
          (List.replicate 10 3) 3).2.files,
        f.id = 1 → f.status = "backed_up" ∧ f.uploaded = true) ∧
     (∀ i < (ErasureCoding.calculateOptimalChunks (List.replicate 10 3).length 3).1 +
          (ErasureCoding.calculateOptimalChunks (List.replicate 10 3).length 3).2,
        ((StorageController.processFileForDistribution c1Db 1 1 (List.replicate 10 3)
            3).2.chunkPlacements.countP (fun p => decide (p.chunkId = c1Db.nextChunkId + i))) =
          c1Db.chunkPlacements.countP (fun p => decide (p.chunkId = c1Db.nextChunkId + i)) + 1)) :=
  ⟨⟨by decide, by decide⟩,
    claim_C1_amended_one_node c1Db 1 1 (List.replicate 10 3)
      ⟨1, 1, "report", 10, "pending", false⟩ (by decide) (by decide)⟩

/-- C9: when the file belongs to the caller but strictly fewer of its data
chunks are marked stored-or-verified than its data-chunk count, `retrieveFile`
throws the insufficient-fragments error and returns nothing. (The source counts
only status `"stored"`, a subset of stored-or-verified, so it fails in every
such state.) -/
theorem claim_C9_retrieve_insufficient (db : DB) (fileId userId : ℕ) (fi : FileRec)
    (hfind : db.files.find? (fun f => decide (f.id = fileId ∧ f.userId = userId)) = some fi)
    (hcount :
      ((db.fileChunks.filter (fun c => decide (c.fileId = fileId))).filter
        (fun c => decide (c.chunkType = "data" ∧
          (c.status = "stored" ∨ c.status = "verified")))).length <
      ((db.fileChunks.filter (fun c => decide (c.fileId = fileId))).filter
        (fun c => decide (c.chunkType = "data"))).length) :
    StorageController.retrieveFile db fileId userId = .error .insufficientChunks := by
  simp only [StorageController.retrieveFile, hfind]
  set F := db.fileChunks.filter (fun c => decide (c.fileId = fileId)) with hF
  set S := List.insertionSort (fun a b => a.chunkIndex ≤ b.chunkIndex) F with hS
  have hperm : S.Perm F := List.perm_insertionSort _ _
  have hdata : (S.filter (fun c => decide (c.chunkType = "data"))).length =
      (F.filter (fun c => decide (c.chunkType = "data"))).length := by
    rw [← List.countP_eq_length_filter, ← List.countP_eq_length_filter]
    exact hperm.countP_eq _
  have havail :
      (S.filter (fun c => decide (c.chunkType = "data" ∧ c.status = "stored"))).length ≤
      (F.filter (fun c => decide (c.chunkType = "data" ∧
        (c.status = "stored" ∨ c.status = "verified")))).length := by
    rw [← List.countP_eq_length_filter, ← List.countP_eq_length_filter, hperm.countP_eq _]
    apply List.countP_mono_left
    intro c _ hc
    simp only [decide_eq_true_eq] at hc ⊢
    exact ⟨hc.1, Or.inl hc.2⟩
  have hlt :
      (S.filter (fun c => decide (c.chunkType = "data" ∧ c.status = "stored"))).length <
      (S.filter (fun c => decide (c.chunkType = "data"))).length := by
    rw [hdata]
    exact lt_of_le_of_lt havail hcount
  have hne : ¬(S.length = 0) := by
    intro h0
    rw [List.length_eq_zero.mp h0] at hlt
    simp at hlt
  rw [if_neg hne, if_pos hlt]

/-- C9 witness: a file whose single data chunk is still `pending`. -/
theorem claim_C9_witness :
    (((DB.mk [⟨1, 1, "f", 10, "pending", false⟩] [⟨1, 1, 1, 0, "data", 4, "pending"⟩] [] [] 2).files.find?
        (fun f => decide (f.id = 1 ∧ f.userId = 1)) =
        some ⟨1, 1, "f", 10, "pending", false⟩) ∧
      ((((DB.mk [⟨1, 1, "f", 10, "pending", false⟩] [⟨1, 1, 1, 0, "data", 4, "pending"⟩] [] [] 2).fileChunks.filter
          (fun c => decide (c.fileId = 1))).filter
          (fun c => decide (c.chunkType = "data" ∧
            (c.status = "stored" ∨ c.status = "verified")))).length <
        (((DB.mk [⟨1, 1, "f", 10, "pending", false⟩] [⟨1, 1, 1, 0, "data", 4, "pending"⟩] [] [] 2).fileChunks.filter
          (fun c => decide (c.fileId = 1))).filter
          (fun c => decide (c.chunkType = "data"))).length)) ∧
    StorageController.retrieveFile
        (DB.mk [⟨1, 1, "f", 10, "pending", false⟩] [⟨1, 1, 1, 0, "data", 4, "pending"⟩] [] [] 2) 1 1 =
      .error .insufficientChunks :=
  ⟨⟨by decide, by decide⟩,
    claim_C9_retrieve_insufficient
      (DB.mk [⟨1, 1, "f", 10, "pending", false⟩] [⟨1, 1, 1, 0, "data", 4, "pending"⟩] [] [] 2) 1 1
      ⟨1, 1, "f", 10, "pending", false⟩ (by decide) (by decide)⟩
